import Mathlib

/-!
Shallow embedding of `src/core_algorithm.py` from the Live-News-Trends
repository, together with proofs settling the claims about its spec.

Modelling conventions:
* Python strings are modelled as `List Char` (`Word`); text handling in the
  source is ASCII (`str.lower` is modelled by `Char.toLower`, which agrees with
  Python on the ASCII range; non-ASCII characters are erased by the
  `[^a-z0-9]+` substitution in either case).
* Python floats produced by `random.random()` and the arithmetic of
  `CountMinSketch.__init__` are modelled as exact rationals: for
  `r ∈ [0, 1)` the float `-1 * (r * 100)` is falsy exactly when `r = 0`,
  and `int()` truncation toward zero of the nonpositive value `-(r * 100)`
  is `-⌊r * 100⌋`.
* The unseeded random draws (`random.random()`, `random.randint`) consumed by
  the constructor are explicit parameters: `r` is the draw for the depth
  formula and `g` enumerates the draws for `hash_seeds`.
* The sha256-based `_hash` is a pure function of the item and the seed; it is
  modelled as a parameter `h : HashFn` (the index is `h item seed % width`
  exactly as in `_hash`). Nothing proved here depends on which function it is.
* Fallible code is modelled with `Option`: Python's `min([])` raises
  `ValueError`, so `estimate` returns `none` when it reads zero rows, and
  `get_trending_words` (which calls `estimate`) is `Option`-valued.
* Python `dict`s (which iterate in key-insertion order) are modelled as
  association lists in insertion order.
-/

/-- A Python string, modelled as its list of characters. -/
abbrev Word := List Char

/-- Model of `CountMinSketch._hash` minus the final `% self.width`:
`int(hashlib.sha256(item + str(seed).encode()).hexdigest(), 16)` is a pure
function of the item and the seed, taken as a parameter. -/
abbrev HashFn := Word → ℕ → ℕ

/-- The space character, `Char.ofNat 32`. -/
def space : Char := Char.ofNat 32

/-- The apostrophe character, `Char.ofNat 39` (appears in stopwords). -/
def apos : Char := Char.ofNat 39

/-- State of a `CountMinSketch` object: fields of `__init__`
(`epsilon`/`delta` are dropped, they are never read after `__init__`).
`depth` is an `ℤ` because the source's depth formula produces negative
values (see `CountMinSketch.init`). -/
structure CountMinSketch where
  width : ℕ
  depth : ℤ
  table : List (List ℕ)
  hash_seeds : List ℕ

/-- Model of `CountMinSketch.__init__(epsilon, delta)`.
`r` models the `random.random()` draw (a float in `[0, 1)`) and `g` the
stream of `random.randint(1, 1_000_000)` draws.
* `width = int(2 / epsilon)`: truncation of the positive rational is its floor.
* `depth = int(-1 * (random.random() * 100) or 10)`: the float
  `-1 * (r * 100)` is falsy (so the `or` yields `10`) exactly when `r = 0`;
  otherwise `int()` truncates the nonpositive float toward zero, which is
  `-⌊r * 100⌋`.
* `self.table = [[0] * self.width for _ in range(self.depth)]`: `range` of a
  nonpositive `depth` is empty, so the table has `depth.toNat` rows.
* `self.hash_seeds = [random.randint(1, 1_000_000) for _ in range(self.depth)]`. -/
def CountMinSketch.init (epsilon : ℚ) (r : ℚ) (g : ℕ → ℕ) : CountMinSketch :=
  let width : ℕ := (⌊(2 : ℚ) / epsilon⌋).toNat
  let depth : ℤ := if (-1 : ℚ) * (r * 100) = 0 then 10 else -⌊r * 100⌋
  { width := width
    depth := depth
    table := List.replicate depth.toNat (List.replicate width 0)
    hash_seeds := (List.range depth.toNat).map g }

/-- Model of `CountMinSketch._hash(item, seed)`: the sha256 integer (the
parameter `h`) reduced modulo `self.width`. -/
def CountMinSketch.hashIdx (c : CountMinSketch) (h : HashFn) (item : Word)
    (seed : ℕ) : ℕ :=
  h item seed % c.width

/-- Helper for `self.table[i][index] += 1`: increment position `j` of a row.
For the sketches built by `init`, `j` is always in range. -/
def incAt (xs : List ℕ) (j : ℕ) : List ℕ :=
  xs.set j (xs.getD j 0 + 1)

/-- Model of `CountMinSketch.update(item)`:
`for i in range(self.depth): self.table[i][self._hash(item, self.hash_seeds[i])] += 1`.
`range(self.depth)` iterates `depth.toNat` times (zero times when
`depth ≤ 0`). Indexing uses `getD`, which agrees with Python on the
in-range accesses made by sketches built by `init`. -/
def CountMinSketch.update (c : CountMinSketch) (h : HashFn) (item : Word) :
    CountMinSketch :=
  { c with
    table := (List.range c.depth.toNat).foldl
      (fun t i => t.set i (incAt (t.getD i [])
        (c.hashIdx h item (c.hash_seeds.getD i 0)))) c.table }

/-- Model of `CountMinSketch.estimate(item)`: collect
`self.table[i][self._hash(item, self.hash_seeds[i])]` for `i in
range(self.depth)` and return `min(estimates)`; Python's `min` raises
`ValueError` on an empty list, modelled by `none`. -/
def CountMinSketch.estimate (c : CountMinSketch) (h : HashFn) (item : Word) :
    Option ℕ :=
  ((List.range c.depth.toNat).map
    (fun i => (c.table.getD i []).getD
      (c.hashIdx h item (c.hash_seeds.getD i 0)) 0)).min?

/-- Module constant `TOP_K = 10`. -/
def TOP_K : ℕ := 10

/-- Module constant `WINDOW_SIZE = 20`. -/
def WINDOW_SIZE : ℕ := 20

/-- Helper building a contraction stopword: the characters of `a`, an
apostrophe, then the characters of `b`. -/
def contraction (a b : String) : Word :=
  a.toList ++ apos :: b.toList

/-- Module constant `STOPWORDS`, in source order. -/
def STOPWORDS : List Word :=
  ["a".toList, "about".toList, "above".toList, "after".toList,
   "again".toList, "against".toList, "all".toList, "am".toList, "an".toList,
   "and".toList, "any".toList, "are".toList, contraction "aren" "t",
   "as".toList, "at".toList, "be".toList, "because".toList, "been".toList,
   "before".toList, "being".toList, "below".toList, "between".toList,
   "both".toList, "but".toList, "by".toList, "can".toList,
   contraction "can" "t", "could".toList, contraction "couldn" "t",
   "did".toList, contraction "didn" "t", "do".toList, "does".toList,
   contraction "doesn" "t", "doing".toList, contraction "don" "t",
   "down".toList, "during".toList, "each".toList, "few".toList,
   "for".toList, "from".toList, "further".toList, "had".toList,
   contraction "hadn" "t", "has".toList, contraction "hasn" "t",
   "have".toList, contraction "haven" "t", "having".toList, "he".toList,
   contraction "he" "d", contraction "he" "ll", contraction "he" "s",
   "her".toList, "here".toList, contraction "here" "s", "hers".toList,
   "herself".toList, "him".toList, "himself".toList, "his".toList,
   "how".toList, contraction "how" "s", "i".toList, contraction "i" "d",
   contraction "i" "ll", contraction "i" "m", contraction "i" "ve",
   "if".toList, "in".toList, "into".toList, "is".toList,
   contraction "isn" "t", "it".toList, contraction "it" "s", "its".toList,
   "itself".toList, contraction "let" "s", "me".toList, "more".toList,
   "most".toList, contraction "mustn" "t", "my".toList, "myself".toList,
   "no".toList, "nor".toList, "not".toList, "of".toList, "off".toList,
   "on".toList, "once".toList, "only".toList, "or".toList, "other".toList,
   "ought".toList, "our".toList, "ours".toList, "ourselves".toList,
   "out".toList, "over".toList, "own".toList, "same".toList, "she".toList,
   contraction "she" "d", contraction "she" "ll", contraction "she" "s",
   "should".toList, contraction "shouldn" "t", "so".toList, "some".toList,
   "such".toList, "than".toList, "that".toList, contraction "that" "s",
   "the".toList, "their".toList, "theirs".toList, "them".toList,
   "themselves".toList, "then".toList, "there".toList,
   contraction "there" "s", "these".toList, "they".toList,
   contraction "they" "d", contraction "they" "ll",
   contraction "they" "re", contraction "they" "ve", "this".toList,
   "those".toList, "through".toList, "to".toList, "too".toList,
   "under".toList, "until".toList, "up".toList, "very".toList,
   "was".toList, contraction "wasn" "t", "we".toList, contraction "we" "d",
   contraction "we" "ll", contraction "we" "re", contraction "we" "ve",
   "were".toList, contraction "weren" "t", "what".toList,
   contraction "what" "s", "when".toList, contraction "when" "s",
   "where".toList, contraction "where" "s", "which".toList,
   "while".toList, "who".toList, contraction "who" "s", "whom".toList,
   "why".toList, contraction "why" "s", "with".toList,
   contraction "won" "t", "would".toList, contraction "wouldn" "t",
   "you".toList, contraction "you" "d", contraction "you" "ll",
   contraction "you" "re", contraction "you" "ve", "your".toList,
   "yours".toList, "yourself".toList, "yourselves".toList, "said".toList,
   "says".toList, "say".toList, "report".toList, "reports".toList,
   "reported".toList, "according".toList, "according to".toList,
   "breaking".toList, "update".toList, "live".toList, "news".toList,
   "story".toList, "via".toList, "source".toList, "sources".toList,
   "new".toList, "latest".toList, "today".toList, "yesterday".toList,
   "tomorrow".toList, "week".toList, "month".toList, "year".toList,
   "time".toList, "analysis".toList, "editor".toList, "editorial".toList,
   "exclusive".toList, "media".toList, "press".toList, "statement".toList,
   "officials".toList, "authorities".toList]

/-- Character class `[a-z0-9]` of the regular expression in `clean_text`. -/
def isLowerAlnum (c : Char) : Bool :=
  (97 ≤ c.toNat && c.toNat ≤ 122) || (48 ≤ c.toNat && c.toNat ≤ 57)

/-- Model of `re.sub(r"[^a-z0-9]+", " ", text)`: every maximal run of
characters outside `[a-z0-9]` is replaced by a single space. Working from
the right, a character outside the class is dropped when the replacement
space for its run is already at the head of the remainder, and otherwise
contributes that space (the head test uses the default `apos`, which can
never be the head of a substituted remainder when it is a space). -/
def subSpace : Word → Word
  | [] => []
  | c :: cs =>
    if isLowerAlnum c then c :: subSpace cs
    else if (subSpace cs).headD apos = space then subSpace cs
    else space :: subSpace cs

/-- Model of `str.strip()` on the output of the substitution (the only
whitespace left is the space character): drop leading and trailing
spaces. -/
def pyStrip (s : Word) : Word :=
  ((s.dropWhile (fun c => c = space)).reverse.dropWhile
    (fun c => c = space)).reverse

/-- Model of `clean_text(text)`: lowercase, replace `[^a-z0-9]+` runs by a
single space, strip. -/
def clean_text (s : Word) : Word :=
  pyStrip (subSpace (s.map Char.toLower))

/-- Accumulator-based model of Python `str.split()` (split on whitespace
runs, discarding empty tokens); `acc` holds the current token reversed. -/
def pySplitAux : Word → Word → List Word
  | [], acc => if acc = [] then [] else [acc.reverse]
  | c :: cs, acc =>
    if c = space then
      if acc = [] then pySplitAux cs [] else acc.reverse :: pySplitAux cs []
    else pySplitAux cs (c :: acc)

/-- Model of `cleaned.split()`. -/
def pySplit (s : Word) : List Word :=
  pySplitAux s []

/-- The token filter `w not in STOPWORDS and len(w) > 2`, applied to
`clean_text(text).split()` both in `process_text` and in
`run_background_algorithm`. -/
def tokenize (s : Word) : List Word :=
  (pySplit (clean_text s)).filter
    (fun w => decide (¬ w ∈ STOPWORDS ∧ 2 < w.length))

/-- Model of appending to a bounded FIFO and trimming, shared by the two
sliding windows in the source: `window.append(cms)` followed by
`if len(window) > WINDOW_SIZE: window.popleft()` in `process_text`, and
`all_words_buffer.append(words)` followed by
`if len(all_words_buffer) > WINDOW_SIZE: all_words_buffer.pop(0)` in
`run_background_algorithm`. -/
def windowPush {α : Type} (w : List α) (x : α) : List α :=
  let w' := w ++ [x]
  if WINDOW_SIZE < w'.length then w'.drop 1 else w'

/-- The window contents after pushing a sequence of snapshots into an
initially empty window. -/
def windowFold {α : Type} (ds : List α) : List α :=
  ds.foldl windowPush []

/-- Model of `process_text(text)`: clean and split the text, build one new
`CountMinSketch()` (with this call's random draws `r`, `g`), update it with
every non-stopword token of length `> 2`, and push it into the sliding
window. The default arguments `epsilon=0.001, delta=0.01` are used. -/
def process_text (h : HashFn) (r : ℚ) (g : ℕ → ℕ)
    (window : List CountMinSketch) (text : Word) : List CountMinSketch :=
  let cms := (tokenize text).foldl
    (fun c w => c.update h w) (CountMinSketch.init (1 / 1000) r g)
  windowPush window cms

/-- Stable descending sort by the second component:
`sorted(xs, key=lambda x: x[1], reverse=True)`. -/
def sortByCountDesc (l : List (Word × ℕ)) : List (Word × ℕ) :=
  l.mergeSort (fun a b => decide (b.2 ≤ a.2))

/-- Model of `get_trending_words()`: start from an empty
`combined_counts = defaultdict(int)`; for every sketch in the window, loop
over `list(combined_counts.keys())` and add `cms.estimate(word)` to each
entry; finally sort by count descending and keep the first `TOP_K`.
`estimate` can raise (return `none`), so the whole computation is
`Option`-valued. -/
def get_trending_words (h : HashFn) (window : List CountMinSketch) :
    Option (List (Word × ℕ)) :=
  (window.foldlM
    (fun (combined : List (Word × ℕ)) (cms : CountMinSketch) =>
      combined.mapM
        (fun p => (cms.estimate h p.1).map (fun e => (p.1, p.2 + e))))
    ([] : List (Word × ℕ))).map
    (fun combined => (sortByCountDesc combined).take TOP_K)

/-- Model of `get_top_k_words()` applied to a `current_trending` mapping
(an association list in insertion order): return `{}` if the mapping is
falsy; otherwise divide each count by `total = sum(values)` when
`total > 0`, and return `{}` otherwise. Python's float division is
modelled exactly in `ℚ`. -/
def get_top_k_words (current_trending : List (Word × ℕ)) :
    List (Word × ℚ) :=
  if current_trending = [] then []
  else
    let total : ℕ := (current_trending.map (fun p => p.2)).sum
    if 0 < total then
      current_trending.map (fun p => (p.1, (p.2 : ℚ) / (total : ℚ)))
    else []

/-- Insertion-ordered model of `freq_map[w] += 1` on a `defaultdict(int)`:
bump the existing entry, or append a new entry with count 1. -/
def bump (m : List (Word × ℕ)) (w : Word) : List (Word × ℕ) :=
  if m.any (fun p => p.1 = w) then
    m.map (fun p => if p.1 = w then (p.1, p.2 + 1) else p)
  else m ++ [(w, 1)]

/-- Model of the `freq_map` computation of `run_background_algorithm`:
`for article_words in all_words_buffer: for w in article_words:
freq_map[w] += 1`. -/
def freqMap (buf : List (List Word)) : List (Word × ℕ) :=
  buf.foldl (fun m ws => ws.foldl bump m) []

/-- The mutable state of the background loop: the module globals
`all_words_buffer`, `window` and `current_trending`, plus `rix`, the number
of sketches built so far (which indexes the stream of random draws). -/
structure PipeState where
  all_words_buffer : List (List Word)
  window : List CountMinSketch
  current_trending : List (Word × ℕ)
  rix : ℕ

/-- The initial state of the module globals. -/
def initState : PipeState :=
  { all_words_buffer := [], window := [], current_trending := [], rix := 0 }

/-- One iteration of the loop body of `run_background_algorithm` for a
fetched `content` (`rand` supplies the random draws of the
`CountMinSketch()` built for this document): skip falsy content; otherwise
push the filtered words into `all_words_buffer` (trimming at
`WINDOW_SIZE`), run `process_text(content)`, rebuild `freq_map` from the
buffer, and store the sorted top `TOP_K` in `current_trending`. -/
def stepDoc (h : HashFn) (rand : ℕ → ℚ × (ℕ → ℕ)) (st : PipeState)
    (content : Word) : PipeState :=
  if content = [] then st
  else
    let words := tokenize content
    let buf := windowPush st.all_words_buffer words
    let rp := rand st.rix
    let win := process_text h rp.1 rp.2 st.window content
    let trending := (sortByCountDesc (freqMap buf)).take TOP_K
    { all_words_buffer := buf
      window := win
      current_trending := trending
      rix := st.rix + 1 }

/-- Model of `run_background_algorithm()` on a finite run: the sequence
`docs` of fetched contents (empty word = no data this tick) is processed in
order starting from the initial module state. -/
def run_background_algorithm (h : HashFn) (rand : ℕ → ℚ × (ℕ → ℕ))
    (docs : List Word) : PipeState :=
  docs.foldl (stepDoc h rand) initState

/-- A concrete hash function used to instantiate evaluation theorems; the
source's sha256 hash is opaque here and nothing depends on its values. -/
def hconst : HashFn := fun _ _ => 0

/-! Sanity checks that the embedded normalizer agrees with the Python one
on concrete inputs, followed by the helper lemmas and the claim theorems. -/

lemma sanity_clean_text : clean_text ("Fed, raises RATES!".toList) =
    "fed raises rates".toList := by decide

lemma sanity_tokenize : tokenize ("The Fed raises rates again".toList) =
    ["fed".toList, "raises".toList, "rates".toList] := by decide

lemma init_depth_of_ne_zero (epsilon r : ℚ) (g : ℕ → ℕ) (hr : r ≠ 0) :
    (CountMinSketch.init epsilon r g).depth = -⌊r * 100⌋ := by
  simp [CountMinSketch.init, mul_eq_zero, hr]

lemma init_depth_of_zero (epsilon : ℚ) (g : ℕ → ℕ) :
    (CountMinSketch.init epsilon 0 g).depth = 10 := by
  simp [CountMinSketch.init]

lemma init_depth_nonpos (epsilon r : ℚ) (g : ℕ → ℕ) (h0 : 0 ≤ r)
    (hr : r ≠ 0) : (CountMinSketch.init epsilon r g).depth ≤ 0 := by
  rw [init_depth_of_ne_zero epsilon r g hr]
  have : (0 : ℤ) ≤ ⌊r * 100⌋ := Int.floor_nonneg.mpr (by positivity)
  omega

lemma init_table_of_depth_nonpos (epsilon r : ℚ) (g : ℕ → ℕ)
    (hd : (CountMinSketch.init epsilon r g).depth ≤ 0) :
    (CountMinSketch.init epsilon r g).table = [] := by
  have h0 : ((CountMinSketch.init epsilon r g).depth).toNat = 0 :=
    Int.toNat_eq_zero.mpr hd
  simp only [CountMinSketch.init] at h0 ⊢
  rw [h0]
  rfl

lemma estimate_none_of_depth_nonpos (c : CountMinSketch) (h : HashFn)
    (item : Word) (hd : c.depth ≤ 0) : c.estimate h item = none := by
  simp [CountMinSketch.estimate, Int.toNat_eq_zero.mpr hd]

lemma update_depth (c : CountMinSketch) (h : HashFn) (item : Word) :
    (c.update h item).depth = c.depth := rfl

lemma init_half_depth :
    (CountMinSketch.init (1 / 1000) (1 / 2) (fun _ => 1)).depth = -50 := by
  rw [init_depth_of_ne_zero _ _ _ (by norm_num)]
  norm_num

/-- C1. The claim asserts that `estimate(w)` always returns the minimum over
the depth rows and never underestimates the true count. On the code this
fails: for any `random.random()` draw other than exactly `0.0` the
constructed sketch has a nonpositive `depth`, hence zero table rows, and
`estimate` evaluates `min([])`, which raises `ValueError` instead of
returning a value. This theorem evaluates the embedded code at the failing
input: construct `CountMinSketch()` with draw `r = 1/2` (depth `-50`),
call `update("fed")` once, then `estimate("fed")` — the result is `none`
(the raised error), not a number `≥ 1`. -/
theorem c1_estimate_raises_after_update :
    ((CountMinSketch.init (1 / 1000) (1 / 2) (fun _ => 1)).update hconst
      ("fed".toList)).estimate hconst ("fed".toList) = none := by
  apply estimate_none_of_depth_nonpos
  rw [update_depth, init_half_depth]
  omega

/-- C2. Corrected. The claim (and the spec) assert that the depth expression
`int(-1 * (random.random() * 100) or 10)` always takes the `or` fallback,
giving depth 10. In Python a nonzero negative float is truthy, so the
fallback is not taken for any nonzero draw: at the concrete draw
`r = 1/2` the depth is `int(-50.0) = -50 ≠ 10` and the table has `0`
rows, not `10`. -/
theorem c2_depth_counterexample :
    (CountMinSketch.init (1 / 1000) (1 / 2) (fun _ => 1)).depth ≠ 10 ∧
    (CountMinSketch.init (1 / 1000) (1 / 2) (fun _ => 1)).table.length ≠ 10 := by
  constructor
  · rw [init_half_depth]
    omega
  · rw [init_table_of_depth_nonpos (1 / 1000) (1 / 2) (fun _ => 1)
      (by rw [init_half_depth]; omega)]
    simp

/-- C2 (amended). For every draw `r` of `random.random()` (so `0 ≤ r`), the
`or` fallback in the depth expression fires exactly when `r = 0`, in which
case the depth is 10; for every nonzero draw the depth is
`int(-(r * 100)) ≤ 0` and the constructed table has zero rows. -/
theorem c2_depth_formula (epsilon r : ℚ) (g : ℕ → ℕ) (h0 : 0 ≤ r) :
    (r = 0 → (CountMinSketch.init epsilon r g).depth = 10) ∧
    (r ≠ 0 → (CountMinSketch.init epsilon r g).depth ≤ 0 ∧
      (CountMinSketch.init epsilon r g).table = []) := by
  constructor
  · rintro rfl
    exact init_depth_of_zero epsilon g
  · intro hr
    have hd := init_depth_nonpos epsilon r g h0 hr
    exact ⟨hd, init_table_of_depth_nonpos epsilon r g hd⟩

/-- C2 witness: the amended statement instantiated at the concrete draw
`r = 1/2` with all hypotheses discharged. -/
theorem c2_depth_formula_witness :
    (CountMinSketch.init (1 / 1000) (1 / 2) (fun _ => 1)).depth ≤ 0 ∧
    (CountMinSketch.init (1 / 1000) (1 / 2) (fun _ => 1)).table = [] :=
  (c2_depth_formula (1 / 1000) (1 / 2) (fun _ => 1) (by norm_num)).2
    (by norm_num)

/-- C6. The claim asserts that a never-updated sketch returns `estimate(w) = 0`
without error. On the code this fails for every `random.random()` draw
other than exactly `0.0`: the sketch then has zero table rows and
`estimate` evaluates `min([])`, raising `ValueError`. This theorem
evaluates the embedded code at the failing input: a fresh
`CountMinSketch()` built with draw `r = 3/4` (depth `-75`) returns `none`
(the raised error) for `estimate("fed")`, not `some 0`. -/
theorem c6_fresh_estimate_raises :
    (CountMinSketch.init (1 / 1000) (3 / 4) (fun _ => 1)).estimate hconst
      ("fed".toList) = none := by
  apply estimate_none_of_depth_nonpos
  exact init_depth_nonpos (1 / 1000) (3 / 4) (fun _ => 1) (by norm_num)
    (by norm_num)

lemma trending_fold_nil (h : HashFn) (window : List CountMinSketch) :
    (window.foldlM
      (fun (combined : List (Word × ℕ)) (cms : CountMinSketch) =>
        combined.mapM
          (fun p => (cms.estimate h p.1).map (fun e => (p.1, p.2 + e))))
      ([] : List (Word × ℕ))) = some [] := by
  induction window with
  | nil => rfl
  | cons c cs ih => simpa [List.foldlM_cons] using ih

/-- C3. The claim asserts that `get_trending_words` sums `estimate(word)`
over the window for each word in the union of words observed across the
snapshots, so that a word first appearing in the most recent document can
be ranked. On the code this fails: the merge loop iterates over
`list(combined_counts.keys())`, which is empty on every call, so nothing
is ever aggregated. This theorem evaluates the embedded code at the
failing input: after processing the document `"fed raises rates"` the
window holds one snapshot whose words include `fed`, yet
`get_trending_words()` returns the empty list rather than ranking `fed`. -/
theorem c3_trending_misses_new_words :
    get_trending_words hconst
      (process_text hconst (1 / 2) (fun _ => 1) []
        ("fed raises rates".toList)) = some [] := by
  rw [get_trending_words, trending_fold_nil]
  simp [sortByCountDesc]

/-- C4. On every window state — after any sequence of `process_text` calls,
hence for every list of sketches in the window — `get_trending_words()`
returns the empty list: `combined_counts` starts empty on each call and
the merge loop ranges over the keys already in `combined_counts`, so no
word is ever added (and `estimate`, which could raise, is never reached). -/
theorem c4_trending_always_empty (h : HashFn) (window : List CountMinSketch) :
    get_trending_words h window = some [] := by
  rw [get_trending_words, trending_fold_nil]
  simp [sortByCountDesc]

/-- C5. On an empty window `get_trending_words()` returns an empty result
and raises no error: the merge loop body never runs, and
`sorted([])[:TOP_K]` is `[]`. -/
theorem c5_empty_window_empty_result (h : HashFn) :
    get_trending_words h [] = some [] := by
  simp [get_trending_words, sortByCountDesc]

lemma windowFold_concat {α : Type} (ds : List α) (d : α) :
    windowFold (ds ++ [d]) = windowPush (windowFold ds) d := by
  simp [windowFold, List.foldl_append]

lemma windowPush_eq {α : Type} (w : List α) (x : α) :
    windowPush w x =
      if WINDOW_SIZE < w.length + 1 then (w ++ [x]).drop 1 else w ++ [x] := by
  simp [windowPush]

lemma windowFold_eq {α : Type} (ds : List α) :
    windowFold ds = ds.drop (ds.length - WINDOW_SIZE) := by
  induction ds using List.reverseRecOn with
  | nil => rfl
  | append_singleton ds d ih =>
    rw [windowFold_concat, ih, windowPush_eq]
    simp only [WINDOW_SIZE] at *
    have hlen : (ds.drop (ds.length - 20)).length = ds.length - (ds.length - 20) :=
      List.length_drop _ _
    by_cases hN : ds.length < 20
    · have h1 : ds.length - 20 = 0 := by omega
      have h2 : (ds ++ [d]).length - 20 = 0 := by
        simp only [List.length_append, List.length_singleton]
        omega
      rw [h1, h2, List.drop_zero, List.drop_zero, if_neg (by omega)]
    · have hge : 20 ≤ ds.length := by omega
      rw [if_pos (by omega),
        List.drop_append_of_le_length (by omega : 1 ≤ (ds.drop (ds.length - 20)).length),
        List.drop_drop,
        List.drop_append_of_le_length
          (by simp only [List.length_append, List.length_singleton]; omega :
            (ds ++ [d]).length - 20 ≤ ds.length)]
      have hidx : ds.length - 20 + 1 = (ds ++ [d]).length - 20 := by
        simp only [List.length_append, List.length_singleton]
        omega
      rw [hidx]

/-- C8. After pushing more than `WINDOW_SIZE` snapshots into the initially
empty sliding window (`append` then `popleft`/`pop(0)` when the length
exceeds `WINDOW_SIZE`, as in `process_text` and in the
`all_words_buffer` maintenance of `run_background_algorithm`), the window
holds exactly the `WINDOW_SIZE` most recently pushed elements in arrival
order, and no prefix of the push sequence ever leaves more than
`WINDOW_SIZE` elements in the window. -/
theorem c8_window_fifo {α : Type} (ds : List α)
    (hlen : WINDOW_SIZE < ds.length) :
    windowFold ds = ds.drop (ds.length - WINDOW_SIZE) ∧
    (windowFold ds).length = WINDOW_SIZE ∧
    (∀ n : ℕ, (windowFold (ds.take n)).length ≤ WINDOW_SIZE) := by
  refine ⟨windowFold_eq ds, ?_, ?_⟩
  · rw [windowFold_eq, List.length_drop]
    omega
  · intro n
    rw [windowFold_eq, List.length_drop, List.length_take]
    omega

/-- C8 witness: pushing the 21 distinct elements `0, …, 20` leaves exactly
the last 20 in order. -/
theorem c8_window_fifo_witness :
    windowFold (List.range 21) =
      (List.range 21).drop ((List.range 21).length - WINDOW_SIZE) ∧
    (windowFold (List.range 21)).length = WINDOW_SIZE ∧
    (∀ n : ℕ, (windowFold ((List.range 21).take n)).length ≤ WINDOW_SIZE) :=
  c8_window_fifo (List.range 21) (by decide)

lemma sum_map_cast_div (l : List ℕ) (T : ℚ) :
    (l.map (fun (c : ℕ) => (c : ℚ) / T)).sum = ((l.sum : ℕ) : ℚ) / T := by
  induction l with
  | nil => simp
  | cons c cs ih =>
    simp only [List.map_cons, List.sum_cons, ih, Nat.cast_add, add_div]

/-- C9. Whenever `current_trending` is non-empty and its aggregated counts
are not all zero, `get_top_k_words()` returns exactly the mapping sending
each word to its count divided by the sum of the counts over the returned
words, and the returned probabilities sum to 1 (exactly, in the rational
model of Python's float division). -/
theorem c9_probabilities_normalized (ct : List (Word × ℕ)) (hne : ct ≠ [])
    (hpos : ∃ p ∈ ct, 0 < p.2) :
    get_top_k_words ct =
      ct.map (fun p =>
        (p.1, (p.2 : ℚ) / (((ct.map (fun q => q.2)).sum : ℕ) : ℚ))) ∧
    ((get_top_k_words ct).map (fun p => p.2)).sum = 1 := by
  obtain ⟨p, hp, hppos⟩ := hpos
  have htot : 0 < (ct.map (fun q => q.2)).sum := by
    calc 0 < p.2 := hppos
    _ ≤ (ct.map (fun q => q.2)).sum :=
      List.single_le_sum (fun x _ => Nat.zero_le x) p.2
        (List.mem_map_of_mem (fun q => q.2) hp)
  have heq : get_top_k_words ct =
      ct.map (fun p =>
        (p.1, (p.2 : ℚ) / (((ct.map (fun q => q.2)).sum : ℕ) : ℚ))) := by
    simp only [get_top_k_words, if_neg hne, if_pos htot]
  refine ⟨heq, ?_⟩
  rw [heq, List.map_map]
  have hcomp : (ct.map
      ((fun p : Word × ℚ => p.2) ∘
        (fun p : Word × ℕ =>
          (p.1, (p.2 : ℚ) / (((ct.map (fun q => q.2)).sum : ℕ) : ℚ))))) =
      (ct.map (fun q => q.2)).map
        (fun (c : ℕ) => (c : ℚ) / (((ct.map (fun q => q.2)).sum : ℕ) : ℚ)) := by
    rw [List.map_map]
    rfl
  rw [hcomp, sum_map_cast_div]
  exact div_self (by exact_mod_cast htot.ne')

/-- C9 witness: the theorem instantiated at the concrete mapping
`{fed: 2, rates: 1}`, with both hypotheses discharged; the probabilities
`2/3` and `1/3` sum to 1. -/
theorem c9_probabilities_normalized_witness :
    get_top_k_words [("fed".toList, 2), ("rates".toList, 1)] =
      [("fed".toList, 2), ("rates".toList, 1)].map
        (fun p => (p.1, (p.2 : ℚ) /
          (((([("fed".toList, 2), ("rates".toList, 1)] :
            List (Word × ℕ)).map (fun q => q.2)).sum : ℕ) : ℚ))) ∧
    ((get_top_k_words [("fed".toList, 2), ("rates".toList, 1)]).map
      (fun p => p.2)).sum = 1 :=
  c9_probabilities_normalized [("fed".toList, 2), ("rates".toList, 1)]
    (by decide) ⟨("fed".toList, 2), by decide, by decide⟩

lemma init_seeds_of_zero (epsilon : ℚ) (g : ℕ → ℕ) :
    (CountMinSketch.init epsilon 0 g).hash_seeds = (List.range 10).map g := by
  simp [CountMinSketch.init]

lemma run_deterministic_aux (h₁ h₂ : HashFn)
    (rand₁ rand₂ : ℕ → ℚ × (ℕ → ℕ)) (docs : List Word) :
    ∀ st₁ st₂ : PipeState,
      st₁.all_words_buffer = st₂.all_words_buffer →
      st₁.current_trending = st₂.current_trending →
      (docs.foldl (stepDoc h₁ rand₁) st₁).all_words_buffer =
        (docs.foldl (stepDoc h₂ rand₂) st₂).all_words_buffer ∧
      (docs.foldl (stepDoc h₁ rand₁) st₁).current_trending =
        (docs.foldl (stepDoc h₂ rand₂) st₂).current_trending := by
  induction docs with
  | nil =>
    intro st₁ st₂ hb hc
    exact ⟨hb, hc⟩
  | cons d ds ih =>
    intro st₁ st₂ hb hc
    simp only [List.foldl_cons]
    by_cases hd : d = []
    · have e₁ : stepDoc h₁ rand₁ st₁ d = st₁ := by simp [stepDoc, hd]
      have e₂ : stepDoc h₂ rand₂ st₂ d = st₂ := by simp [stepDoc, hd]
      rw [e₁, e₂]
      exact ih st₁ st₂ hb hc
    · refine ih _ _ ?_ ?_
      · simp [stepDoc, hd, hb]
      · simp [stepDoc, hd, hb]

/-- C7 (amended). Given the same sequence of fetched documents, two runs of
the background pipeline produce identical `current_trending` rankings and
identical `get_top_k_words()` probabilities, whatever the unseeded random
draws and whatever the hash function: the published trending data is
computed from the exact word counts of `all_words_buffer` and never reads
the sketch window. (The claim's further assertion that sketch construction
is deterministic from configuration is false; see the counterexample.) -/
theorem c7_output_deterministic (h₁ h₂ : HashFn)
    (rand₁ rand₂ : ℕ → ℚ × (ℕ → ℕ)) (docs : List Word) :
    (run_background_algorithm h₁ rand₁ docs).current_trending =
      (run_background_algorithm h₂ rand₂ docs).current_trending ∧
    get_top_k_words
        (run_background_algorithm h₁ rand₁ docs).current_trending =
      get_top_k_words
        (run_background_algorithm h₂ rand₂ docs).current_trending := by
  have h := (run_deterministic_aux h₁ h₂ rand₁ rand₂ docs initState initState
    rfl rfl).2
  unfold run_background_algorithm
  exact ⟨h, by rw [h]⟩

/-- C7 counterexample to the claim as stated: sketch construction does NOT
derive its hash seeds and dimensions deterministically from configuration.
With the same configuration (`epsilon = 0.001, delta = 0.01`) but
different unseeded random draws, two constructed sketches differ in their
`hash_seeds` (draws `3,3,…` versus `5,5,…` with depth draw `0`) and in
their `depth` (`-50` for `random.random() = 1/2` versus `-25` for `1/4`). -/
theorem c7_construction_nondeterministic :
    (CountMinSketch.init (1 / 1000) 0 (fun _ => 3)).hash_seeds ≠
      (CountMinSketch.init (1 / 1000) 0 (fun _ => 5)).hash_seeds ∧
    (CountMinSketch.init (1 / 1000) (1 / 2) (fun _ => 1)).depth ≠
      (CountMinSketch.init (1 / 1000) (1 / 4) (fun _ => 1)).depth := by
  constructor
  · rw [init_seeds_of_zero, init_seeds_of_zero]
    decide
  · rw [init_half_depth, init_depth_of_ne_zero _ _ _ (by norm_num)]
    norm_num

lemma subSpace_chars (s : Word) :
    ∀ c ∈ subSpace s, isLowerAlnum c = true ∨ c = space := by
  induction s with
  | nil => simp [subSpace]
  | cons a as ih =>
    intro c hc
    simp only [subSpace] at hc
    by_cases h1 : isLowerAlnum a
    · rw [if_pos h1] at hc
      rcases List.mem_cons.mp hc with rfl | h
      · exact Or.inl h1
      · exact ih c h
    · rw [if_neg h1] at hc
      by_cases h2 : (subSpace as).headD apos = space
      · rw [if_pos h2] at hc
        exact ih c hc
      · rw [if_neg h2] at hc
        rcases List.mem_cons.mp hc with rfl | h
        · exact Or.inr rfl
        · exact ih c h

lemma pyStrip_subset (s : Word) : ∀ c ∈ pyStrip s, c ∈ s := by
  intro c hc
  rw [pyStrip, List.mem_reverse] at hc
  have h1 := (List.dropWhile_sublist _).subset hc
  rw [List.mem_reverse] at h1
  exact (List.dropWhile_sublist _).subset h1

lemma pySplitAux_chars (s : Word) :
    ∀ acc : Word, (∀ c ∈ acc, c ≠ space) →
      ∀ t ∈ pySplitAux s acc, ∀ c ∈ t, (c ∈ s ∨ c ∈ acc) ∧ c ≠ space := by
  induction s with
  | nil =>
    intro acc hacc t ht c hc
    simp only [pySplitAux] at ht
    by_cases h : acc = []
    · rw [if_pos h] at ht
      simp at ht
    · rw [if_neg h] at ht
      have ht' : t = acc.reverse := by simpa using ht
      subst ht'
      rw [List.mem_reverse] at hc
      exact ⟨Or.inr hc, hacc c hc⟩
  | cons a as ih =>
    intro acc hacc t ht c hc
    simp only [pySplitAux] at ht
    by_cases ha : a = space
    · rw [if_pos ha] at ht
      by_cases h : acc = []
      · rw [if_pos h] at ht
        have hres := ih [] (by simp) t ht c hc
        rcases hres.1 with hx | hx
        · exact ⟨Or.inl (List.mem_cons_of_mem a hx), hres.2⟩
        · simp at hx
      · rw [if_neg h] at ht
        rcases List.mem_cons.mp ht with rfl | ht'
        · rw [List.mem_reverse] at hc
          exact ⟨Or.inr hc, hacc c hc⟩
        · have hres := ih [] (by simp) t ht' c hc
          rcases hres.1 with hx | hx
          · exact ⟨Or.inl (List.mem_cons_of_mem a hx), hres.2⟩
          · simp at hx
    · rw [if_neg ha] at ht
      have hacc' : ∀ x ∈ a :: acc, x ≠ space := by
        intro x hx
        rcases List.mem_cons.mp hx with rfl | hx
        · exact ha
        · exact hacc x hx
      have hres := ih (a :: acc) hacc' t ht c hc
      rcases hres.1 with hx | hx
      · exact ⟨Or.inl (List.mem_cons_of_mem a hx), hres.2⟩
      · rcases List.mem_cons.mp hx with rfl | hx
        · exact ⟨Or.inl (List.mem_cons_self _ _), hres.2⟩
        · exact ⟨Or.inr hx, hres.2⟩

lemma tokenize_chars (s : Word) :
    ∀ t ∈ tokenize s, ∀ c ∈ t, isLowerAlnum c = true := by
  intro t ht c hc
  rw [tokenize] at ht
  have ht' := (List.mem_filter.mp ht).1
  have hchar := pySplitAux_chars (clean_text s) [] (by simp) t ht' c hc
  rcases hchar.1 with hx | hx
  · have h2 := pyStrip_subset _ c hx
    rcases subSpace_chars _ c h2 with h3 | h3
    · exact h3
    · exact absurd h3 hchar.2
  · simp at hx

/-- C10. The normalizer behaves as claimed and never fails (it is a total
function in this model): the empty input yields an empty token sequence;
every produced token has length `> 2`, is not a stopword, and consists
only of lowercase-alphanumeric characters (so the lowercasing, the
replacement of `[^a-z0-9]` runs by spaces, the whitespace split, and the
length/stopword drops all took effect); and `process_text` pushes a
snapshot for every document — in particular, a document whose every token
is a stopword still increases the window length by one when the window is
not full. -/
theorem c10_normalizer_and_snapshots :
    tokenize [] = [] ∧
    (∀ s : Word, ∀ t ∈ tokenize s, 2 < t.length ∧ ¬ t ∈ STOPWORDS ∧
      ∀ c ∈ t, isLowerAlnum c = true) ∧
    (∀ (h : HashFn) (r : ℚ) (g : ℕ → ℕ) (win : List CountMinSketch)
      (s : Word), win.length < WINDOW_SIZE →
        (process_text h r g win s).length = win.length + 1) := by
  refine ⟨rfl, ?_, ?_⟩
  · intro s t ht
    have hchars := tokenize_chars s t ht
    rw [tokenize] at ht
    have hp' := of_decide_eq_true (List.mem_filter.mp ht).2
    exact ⟨hp'.2, hp'.1, hchars⟩
  · intro h r g win s hlen
    rw [process_text, windowPush_eq,
      if_neg (by simp only [WINDOW_SIZE] at hlen ⊢; omega)]
    simp

/-- C10 witness: a document whose every token is a stopword or too short
still produces a snapshot — the window length grows from 0 to 1. -/
theorem c10_normalizer_and_snapshots_witness :
    (process_text hconst (1 / 2) (fun _ => 1) ([] : List CountMinSketch)
      ("The of and".toList)).length = ([] : List CountMinSketch).length + 1 :=
  c10_normalizer_and_snapshots.2.2 hconst (1 / 2) (fun _ => 1) []
    ("The of and".toList) (by decide)
